import Mathlib

/-!
Shallow embedding of `bot_final.py` (a Telegram homework bot): the
natural-language request interpretation and homework-filtering engine.
The model-facing side (`model.generate_content`) is treated as an input:
every function that consumed a model response takes the raw response text
(or `none` for a gateway failure) as an argument.

Python string primitives (`str.strip`, `str.lower`, `str.capitalize`,
`str.replace`) are modelled on `List Char`.  Case mapping is restricted to
Basic Latin and the Cyrillic alphabet — the only scripts this repository's
data uses; all other characters are left unchanged, like Python does for
caseless characters.
-/

set_option maxHeartbeats 1000000

namespace Bot

/-- Whitespace characters recognised by Python's default `str.strip`
(restricted to the ASCII whitespace the bot's data can contain). -/
def isPySpace (c : Char) : Bool :=
  c = ' ' || c = '\t' || c = '\n' || c = '\x0d' || c = '\x0b' || c = '\x0c'

/-- Remove trailing characters satisfying `isPySpace`. -/
def trimEnd : List Char → List Char
  | [] => []
  | c :: r =>
    let r' := trimEnd r
    if r' = [] ∧ isPySpace c then [] else c :: r'

/-- Python `str.strip()` on a character list: drop leading and trailing
whitespace. -/
def pyStripList (l : List Char) : List Char :=
  trimEnd (l.dropWhile isPySpace)

/-- Python `str.strip()`. -/
def pyStrip (s : String) : String :=
  ⟨pyStripList s.data⟩

/-- Case-mapping table `(uppercase, lowercase)` for Basic Latin and
Cyrillic (the Russian alphabet, including Ё). -/
def caseTable : List (Char × Char) :=
  [('A', 'a'), ('B', 'b'), ('C', 'c'), ('D', 'd'), ('E', 'e'), ('F', 'f'),
   ('G', 'g'), ('H', 'h'), ('I', 'i'), ('J', 'j'), ('K', 'k'), ('L', 'l'),
   ('M', 'm'), ('N', 'n'), ('O', 'o'), ('P', 'p'), ('Q', 'q'), ('R', 'r'),
   ('S', 's'), ('T', 't'), ('U', 'u'), ('V', 'v'), ('W', 'w'), ('X', 'x'),
   ('Y', 'y'), ('Z', 'z'),
   ('А', 'а'), ('Б', 'б'), ('В', 'в'), ('Г', 'г'), ('Д', 'д'), ('Е', 'е'),
   ('Ж', 'ж'), ('З', 'з'), ('И', 'и'), ('Й', 'й'), ('К', 'к'), ('Л', 'л'),
   ('М', 'м'), ('Н', 'н'), ('О', 'о'), ('П', 'п'), ('Р', 'р'), ('С', 'с'),
   ('Т', 'т'), ('У', 'у'), ('Ф', 'ф'), ('Х', 'х'), ('Ц', 'ц'), ('Ч', 'ч'),
   ('Ш', 'ш'), ('Щ', 'щ'), ('Ъ', 'ъ'), ('Ы', 'ы'), ('Ь', 'ь'), ('Э', 'э'),
   ('Ю', 'ю'), ('Я', 'я'), ('Ё', 'ё')]

/-- Python `str.lower` on one character (restricted to `caseTable`). -/
def pyLowerChar (c : Char) : Char :=
  match caseTable.find? (fun p => p.1 = c) with
  | some p => p.2
  | none => c

/-- Python `str.upper` (and, for the table's scripts, `str.title`) on one
character. -/
def pyUpperChar (c : Char) : Char :=
  match caseTable.find? (fun p => p.2 = c) with
  | some p => p.1
  | none => c

/-- Python `str.lower()`. -/
def pyLower (s : String) : String :=
  ⟨s.data.map pyLowerChar⟩

/-- Python `str.capitalize()` on a character list: first character
title-cased, the rest lower-cased. -/
def capList : List Char → List Char
  | [] => []
  | c :: r => pyUpperChar c :: r.map pyLowerChar

/-- Python `str.capitalize()`. -/
def pyCapitalize (s : String) : String :=
  ⟨capList s.data⟩

/-- Boolean prefix test on character lists. -/
def isPrefixList : List Char → List Char → Bool
  | [], _ => true
  | _ :: _, [] => false
  | p :: ps, c :: cs => p = c && isPrefixList ps cs

/-- One fuel-indexed pass of Python `str.replace`: leftmost, non-overlapping
occurrences of `pat` are replaced by `rep`.  The fuel is the input length,
which every step decreases while also consuming at least one character. -/
def replaceGo (pat rep : List Char) : Nat → List Char → List Char
  | _, [] => []
  | 0, s => s
  | f + 1, c :: cs =>
    if isPrefixList pat (c :: cs) then
      rep ++ replaceGo pat rep f (cs.drop (pat.length - 1))
    else
      c :: replaceGo pat rep f cs

/-- Python `str.replace(pat, rep)` (for non-empty `pat`; the source only
replaces the literal fence markers, which are non-empty). -/
def pyReplace (s pat rep : String) : String :=
  if pat.data = [] then s
  else ⟨replaceGo pat.data rep.data s.data.length s.data⟩

/-!
The JSON value model.  `json.loads` produces Python values; the only
operations the bot performs on them are truthiness tests, `dict.get`,
the `in` operator, subscripting, `==` against string literals and
`str.strip`.  Integers keep their value; floats keep their lexeme (the
bot never does arithmetic on parsed numbers, so float semantics are never
needed).  JSON strings are decoded with the standard escapes; `\uXXXX`
escapes outside the valid scalar range are out of the model's scope (the
bot's data never contains them).
-/

inductive Json where
  | null : Json
  | bool (b : Bool) : Json
  | num (n : Int) : Json
  | fnum (lexeme : String) : Json
  | str (s : String) : Json
  | arr (elems : List Json) : Json
  | obj (fields : List (String × Json)) : Json

/-- Key lookup in a parsed object (Python `dict` lookup; keys are unique
by construction, see `objInsert`). -/
def objLookup (fields : List (String × Json)) (k : String) : Option Json :=
  match fields.find? (fun p => p.1 = k) with
  | some p => some p.2
  | none => none

/-- Insertion while building an object: a duplicate key keeps its original
position and takes the later value, exactly like a Python `dict`. -/
def objInsert (fields : List (String × Json)) (k : String) (v : Json) :
    List (String × Json) :=
  if (fields.find? (fun p => p.1 = k)).isSome then
    fields.map (fun p => if p.1 = k then (p.1, v) else p)
  else
    fields ++ [(k, v)]

/-- JSON insignificant whitespace (RFC 8259 / CPython `json`). -/
def isJsonWs (c : Char) : Bool :=
  c = ' ' || c = '\t' || c = '\n' || c = '\x0d'

def skipWs (l : List Char) : List Char :=
  l.dropWhile isJsonWs

def isHexDigit (c : Char) : Bool :=
  c.isDigit || ('a' ≤ c && c ≤ 'f') || ('A' ≤ c && c ≤ 'F')

def hexVal (c : Char) : Nat :=
  if c.isDigit then c.toNat - 48
  else if 'a' ≤ c && c ≤ 'f' then c.toNat - 87
  else if 'A' ≤ c && c ≤ 'F' then c.toNat - 55
  else 0

/-- Body of a JSON string literal (the opening quote already consumed);
`acc` holds the decoded characters in reverse. -/
def parseJStringAux : List Char → List Char → Option (String × List Char)
  | [], _ => none
  | '"' :: r, acc => some (⟨acc.reverse⟩, r)
  | '\\' :: '"' :: r, acc => parseJStringAux r ('"' :: acc)
  | '\\' :: '\\' :: r, acc => parseJStringAux r ('\\' :: acc)
  | '\\' :: '/' :: r, acc => parseJStringAux r ('/' :: acc)
  | '\\' :: 'b' :: r, acc => parseJStringAux r ('\x08' :: acc)
  | '\\' :: 'f' :: r, acc => parseJStringAux r ('\x0c' :: acc)
  | '\\' :: 'n' :: r, acc => parseJStringAux r ('\n' :: acc)
  | '\\' :: 'r' :: r, acc => parseJStringAux r ('\x0d' :: acc)
  | '\\' :: 't' :: r, acc => parseJStringAux r ('\t' :: acc)
  | '\\' :: 'u' :: h1 :: h2 :: h3 :: h4 :: r, acc =>
    if isHexDigit h1 && isHexDigit h2 && isHexDigit h3 && isHexDigit h4 then
      let n := ((hexVal h1 * 16 + hexVal h2) * 16 + hexVal h3) * 16 + hexVal h4
      parseJStringAux r (Char.ofNat n :: acc)
    else none
  | '\\' :: _, _ => none
  | c :: r, acc =>
    if c.toNat < 32 then none else parseJStringAux r (c :: acc)

def parseJString (l : List Char) : Option (String × List Char) :=
  parseJStringAux l []

def digitsToNat (l : List Char) : Nat :=
  l.foldl (fun a c => a * 10 + (c.toNat - 48)) 0

/-- JSON number grammar: `-?(0|[1-9][0-9]*)(\.[0-9]+)?([eE][+-]?[0-9]+)?`.
An integer lexeme becomes `Json.num`; a fraction or exponent makes it a
float and only the lexeme is kept. -/
def parseNumber (l : List Char) : Option (Json × List Char) :=
  let (sign, l1) := match l with
    | '-' :: r => (true, r)
    | _ => (false, l)
  let intPart := l1.takeWhile Char.isDigit
  let l2 := l1.drop intPart.length
  if intPart = [] then none
  else if intPart.length > 1 ∧ intPart.head? = some '0' then none
  else
    let (frac, l3) := match l2 with
      | '.' :: r =>
        let ds := r.takeWhile Char.isDigit
        if ds = [] then (none, l2) else (some ds, r.drop ds.length)
      | _ => (none, l2)
    match frac, l3 with
    | none, _ =>
      match l3 with
      | 'e' :: r | 'E' :: r =>
        let (r1) := match r with
          | '+' :: r' => r'
          | '-' :: r' => r'
          | _ => r
        let es := r1.takeWhile Char.isDigit
        if es = [] then none
        else some (.fnum ⟨l.take (l.length - (r1.drop es.length).length)⟩,
                   r1.drop es.length)
      | _ =>
        let v : Int := Int.ofNat (digitsToNat intPart)
        some (.num (if sign then -v else v), l3)
    | some _, _ =>
      match l3 with
      | 'e' :: r | 'E' :: r =>
        let (r1) := match r with
          | '+' :: r' => r'
          | '-' :: r' => r'
          | _ => r
        let es := r1.takeWhile Char.isDigit
        if es = [] then none
        else some (.fnum ⟨l.take (l.length - (r1.drop es.length).length)⟩,
                   r1.drop es.length)
      | _ => some (.fnum ⟨l.take (l.length - l3.length)⟩, l3)

mutual

/-- Fuel-indexed recursive-descent JSON value parser.  The fuel is the
input length plus one; every recursive call consumes at least one
character first, so the fuel never runs out on inputs the grammar
accepts. -/
def parseValue : Nat → List Char → Option (Json × List Char)
  | 0, _ => none
  | f + 1, l =>
    match l with
    | '\x7b' :: r =>
      match skipWs r with
      | '\x7d' :: r2 => some (.obj [], r2)
      | r' => parseMembers f r' []
    | '[' :: r =>
      match skipWs r with
      | ']' :: r2 => some (.arr [], r2)
      | r' => parseElems f r' []
    | '"' :: r =>
      match parseJString r with
      | some (s, r') => some (.str s, r')
      | none => none
    | 't' :: 'r' :: 'u' :: 'e' :: r => some (.bool true, r)
    | 'f' :: 'a' :: 'l' :: 's' :: 'e' :: r => some (.bool false, r)
    | 'n' :: 'u' :: 'l' :: 'l' :: r => some (.null, r)
    | 'N' :: 'a' :: 'N' :: r => some (.fnum "nan", r)
    | 'I' :: 'n' :: 'f' :: 'i' :: 'n' :: 'i' :: 't' :: 'y' :: r =>
      some (.fnum "inf", r)
    | '-' :: 'I' :: 'n' :: 'f' :: 'i' :: 'n' :: 'i' :: 't' :: 'y' :: r =>
      some (.fnum "-inf", r)
    | _ => parseNumber l

/-- Object members after `\x7b` (at least one expected). -/
def parseMembers : Nat → List Char → List (String × Json) →
    Option (Json × List Char)
  | 0, _, _ => none
  | f + 1, l, acc =>
    match l with
    | '"' :: r =>
      match parseJString r with
      | none => none
      | some (k, r1) =>
        match skipWs r1 with
        | ':' :: r2 =>
          match parseValue f (skipWs r2) with
          | none => none
          | some (v, r3) =>
            let acc' := objInsert acc k v
            match skipWs r3 with
            | ',' :: r4 => parseMembers f (skipWs r4) acc'
            | '\x7d' :: r4 => some (.obj acc', r4)
            | _ => none
        | _ => none
    | _ => none

/-- Array elements after `[` (at least one expected). -/
def parseElems : Nat → List Char → List Json → Option (Json × List Char)
  | 0, _, _ => none
  | f + 1, l, acc =>
    match parseValue f l with
    | none => none
    | some (v, r) =>
      match skipWs r with
      | ',' :: r2 => parseElems f (skipWs r2) (acc ++ [v])
      | ']' :: r2 => some (.arr (acc ++ [v]), r2)
      | _ => none

end

/-- Python `json.loads`: parse one JSON value surrounded by optional
whitespace; anything else raises, modelled as `none`. -/
def jsonLoads (s : String) : Option Json :=
  let l := skipWs s.data
  match parseValue (l.length + 1) l with
  | some (v, rest) => if skipWs rest = [] then some v else none
  | none => none

/-!
Python runtime operations on parsed values.  Operations that can raise in
Python return `Except PyErr`; `handle_message` has no try/except, so an
error value models an exception propagating out of the handler.
-/

inductive PyErr where
  | attributeError (attr : String) : PyErr
  | typeError (msg : String) : PyErr
  | keyError (k : String) : PyErr
deriving DecidableEq

/-- Python truthiness of a parsed JSON value.  A float lexeme is falsy
exactly when all its mantissa digits are zero (`nan`/`inf` are truthy). -/
def pyTruthy : Json → Bool
  | .null => false
  | .bool b => b
  | .num n => n ≠ 0
  | .fnum lx =>
    lx = "nan" || lx = "inf" || lx = "-inf" ||
      (lx.data.filter Char.isDigit).any (fun c => c ≠ '0')
  | .str s => s ≠ ""
  | .arr xs => !xs.isEmpty
  | .obj fs => !fs.isEmpty

/-- Python `value.get(key, default)`: only `dict` has a `get` attribute. -/
def pyGet (v : Json) (k : String) (dflt : Json) : Except PyErr Json :=
  match v with
  | .obj fs => .ok ((objLookup fs k).getD dflt)
  | _ => .error (.attributeError "get")

/-- Python `value.strip()`: only `str` has a `strip` attribute. -/
def pyStripAttr (v : Json) : Except PyErr String :=
  match v with
  | .str s => .ok (pyStrip s)
  | _ => .error (.attributeError "strip")

/-- Substring test (for Python `needle in string`). -/
def containsSub (needle hay : List Char) : Bool :=
  match hay with
  | [] => needle = []
  | _ :: t => isPrefixList needle hay || containsSub needle t

/-- Python `"lit" == value` for a parsed value: equal only to the same
string; never equal to values of the other JSON types, and no exception. -/
def pyEqStr (lit : String) (v : Json) : Bool :=
  match v with
  | .str s => lit = s
  | _ => false

/-- Python `key in value` with a string key: key test for `dict`,
membership for `list`, substring for `str`, `TypeError` otherwise. -/
def pyContains (v : Json) (k : String) : Except PyErr Bool :=
  match v with
  | .obj fs => .ok (objLookup fs k).isSome
  | .arr xs => .ok (xs.any (pyEqStr k))
  | .str s => .ok (containsSub k.data s.data)
  | _ => .error (.typeError "argument not iterable")

/-- Python `value[key]` with a string key. -/
def pySubscript (v : Json) (k : String) : Except PyErr Json :=
  match v with
  | .obj fs =>
    match objLookup fs k with
    | some x => .ok x
    | none => .error (.keyError k)
  | .arr _ => .error (.typeError "list indices must be integers")
  | .str _ => .error (.typeError "string indices must be integers")
  | _ => .error (.typeError "object is not subscriptable")

/-!
The embedding of `bot_final.py` itself.  The model response is an input:
`none` stands for `model.generate_content` (or `.text`) raising, which the
adapter's try/except turns into `None`.
-/

/-- `ask_model_for_json` (lines 50-66) applied to the raw model output:
strip the literal fence markers, trim whitespace, `json.loads`; any parse
failure is caught and becomes `None`. -/
def ask_model_for_json (raw : String) : Option Json :=
  jsonLoads (pyStrip (pyReplace (pyReplace raw "```json" "") "```" ""))

/-- The adapter result as seen by callers: a gateway failure (`none`) is
caught by the same try/except and also becomes `None`. -/
def adapterResult : Option String → Option Json
  | none => none
  | some raw => ask_model_for_json raw

/-- The stoplist of non-subject words (line 80). -/
def stopwords : List String := ["задание", "задали", "что"]

/-- `cleanup_subject_and_date` (lines 72-87): blank the subject when its
lower-cased, stripped form is a stoplist word, then strip both fields.
The `text` argument is unused, exactly as in the source. -/
def cleanup_subject_and_date (text subject date_str : String) :
    String × String :=
  let low_subj := pyStrip (pyLower subject)
  let subject' := if stopwords.contains low_subj then "" else subject
  (pyStrip subject', pyStrip date_str)

/-- The full subject pipeline a raw extracted subject goes through in
`parse_homework`/`parse_homework_request` (lines 144, 149, 156 and 194,
198, 201): `.strip()`, then `cleanup_subject_and_date` (whose subject
output does not depend on the date argument), then
`subject.capitalize() if subject else ""`. -/
def normalize_subject (raw : String) : String :=
  let s := pyStrip raw
  let s' := (cleanup_subject_and_date "" s "").1
  if s' = "" then "" else pyCapitalize s'

/-- `parse_query` (lines 93-106) applied to the adapter result: `"unknown"`
when the result is falsy or lacks `"intent"`, otherwise `result["intent"]`
unvalidated.  Python evaluates `not result` before `"intent" not in
result`, so the membership test (which can raise `TypeError` on a
non-container) only runs on truthy results. -/
def parse_query (resp : Option Json) : Except PyErr Json :=
  match resp with
  | none => .ok (.str "unknown")
  | some result =>
    if pyTruthy result = false then .ok (.str "unknown")
    else
      match pyContains result "intent" with
      | .error e => .error e
      | .ok b =>
        if b = false then .ok (.str "unknown")
        else pySubscript result "intent"

/-- A homework record as stored (the dict built on lines 155-159). -/
structure HW where
  subject : String
  task : String
  date : String
deriving DecidableEq

/-- `parse_homework` (lines 112-159) applied to the adapter result. -/
def parse_homework (text : String) (resp : Option Json) :
    Except PyErr (Option HW) :=
  match resp with
  | none => .ok none
  | some result =>
    if pyTruthy result = false then .ok none
    else
      match pyGet result "subject" (.str "") with
      | .error e => .error e
      | .ok sv =>
        match pyStripAttr sv with
        | .error e => .error e
        | .ok subject =>
          match pyGet result "task" (.str "") with
          | .error e => .error e
          | .ok tv =>
            match pyStripAttr tv with
            | .error e => .error e
            | .ok task =>
              match pyGet result "date" (.str "") with
              | .error e => .error e
              | .ok dv =>
                match pyStripAttr dv with
                | .error e => .error e
                | .ok date_str0 =>
                  let (subject', date_str) :=
                    cleanup_subject_and_date text subject date_str0
                  if subject' = "" ∧ task = "" ∧ date_str = "" then .ok none
                  else .ok (some ⟨if subject' = "" then ""
                                  else pyCapitalize subject',
                                  task, date_str⟩)

/-- The string stored under `k`, or `""` when the key is absent (the
value `result.get(k, "")` denotes for string-valued fields). -/
def fieldStr (fields : List (String × Json)) (k : String) : String :=
  match objLookup fields k with
  | some (Json.str s) => s
  | _ => ""

/-- The key `k` is either absent or holds a string (the domain on which
`parse_homework` does not raise, see C5). -/
def strOrMissing (fields : List (String × Json)) (k : String) : Prop :=
  ∀ v, objLookup fields k = some v → ∃ s, v = Json.str s

/-- The three normalized field values `parse_homework` computes before
its all-empty test: stripped subject/task/date, with the subject run
through `cleanup_subject_and_date` (still un-capitalized). -/
def ph_fields (text : String) (fields : List (String × Json)) :
    String × String × String :=
  let subject := pyStrip (fieldStr fields "subject")
  let task := pyStrip (fieldStr fields "task")
  let date_str := pyStrip (fieldStr fields "date")
  let (subject', date_str') := cleanup_subject_and_date text subject date_str
  (subject', task, date_str')

/-- A retrieval filter (the dict built on lines 200-203). -/
structure FilterReq where
  subject : String
  date : String
deriving DecidableEq

/-- `parse_homework_request` (lines 165-203) applied to the adapter
result: unlike `parse_homework`, a truthy result always yields a record,
even with both fields empty. -/
def parse_homework_request (text : String) (resp : Option Json) :
    Except PyErr (Option FilterReq) :=
  match resp with
  | none => .ok none
  | some result =>
    if pyTruthy result = false then .ok none
    else
      match pyGet result "subject" (.str "") with
      | .error e => .error e
      | .ok sv =>
        match pyStripAttr sv with
        | .error e => .error e
        | .ok subject =>
          match pyGet result "date" (.str "") with
          | .error e => .error e
          | .ok dv =>
            match pyStripAttr dv with
            | .error e => .error e
            | .ok date_str0 =>
              let (subject', date_str) :=
                cleanup_subject_and_date text subject date_str0
              .ok (some ⟨if subject' = "" then ""
                         else pyCapitalize subject', date_str⟩)

/-!
The homework store (line 44): a Python dict from date string to a list of
records, modelled as an insertion-ordered association list with unique
keys (a dict cannot hold a key twice; lookup and update consistently use
the first match).
-/

abbrev Store := List (String × List HW)

/-- Python dict lookup `homework_storage[k]` / the hit case of `.get`. -/
def storeGet : Store → String → Option (List HW)
  | [], _ => none
  | (k, b) :: rest, key => if k = key then some b else storeGet rest key

/-- `homework_storage.get(k, dflt)` (lines 243, 250): returns the bucket
or the default, and - unlike `setdefault` - leaves the dict unchanged.
The store is returned alongside to make that explicit. -/
def dictGet (st : Store) (k : String) (dflt : List HW) :
    List HW × Store :=
  ((storeGet st k).getD dflt, st)

/-- `homework_storage.setdefault(date, []).append(hw)` (line 290): append
to the bucket keyed by `hw.date`, creating it at the end if absent.  No
deduplication and no validation of the date string. -/
def store_insert : Store → HW → Store
  | [], hw => [(hw.date, [hw])]
  | (k, b) :: rest, hw =>
    if k = hw.date then (k, b ++ [hw]) :: rest
    else (k, b) :: store_insert rest hw

/-- A sequence of inserts starting from a given store. -/
def insertAll (rs : List HW) (st : Store) : Store :=
  rs.foldl store_insert st

/-- Total number of records in the store. -/
def totalLen (st : Store) : Nat :=
  (st.map (fun p => p.2.length)).sum

/-!
Dates.  `datetime` values are modelled as a proleptic-Gregorian ordinal
day plus a time-of-day (any unit; only order matters).  `strptime(s,
"%d.%m.%Y")` parses a 1-2 digit day, a 1-2 digit month and an exactly
4-digit year separated by literal dots, then the `datetime` constructor
validates the day against the month length and rejects year 0.
-/

structure PyDateTime where
  day : Nat
  tod : Nat
deriving DecidableEq

def isLeap (y : Nat) : Bool :=
  (y % 4 = 0 && y % 100 ≠ 0) || y % 400 = 0

def daysInMonth (y m : Nat) : Nat :=
  if m = 2 then (if isLeap y then 29 else 28)
  else if m = 4 ∨ m = 6 ∨ m = 9 ∨ m = 11 then 30
  else 31

def daysBeforeMonth (y m : Nat) : Nat :=
  (List.range (m - 1)).foldl (fun a i => a + daysInMonth y (i + 1)) 0

/-- `date(y, m, d).toordinal()`, the standard proleptic Gregorian
ordinal. -/
def toOrdinal (y m d : Nat) : Nat :=
  365 * (y - 1) + (y - 1) / 4 - (y - 1) / 100 + (y - 1) / 400 +
    daysBeforeMonth y m + d

/-- Split a character list on a separator character. -/
def splitSep (sep : Char) : List Char → List (List Char)
  | [] => [[]]
  | c :: r =>
    match splitSep sep r with
    | [] => [[c]]
    | h :: t => if c = sep then [] :: h :: t else (c :: h) :: t

def allDigits (l : List Char) : Bool :=
  l.all Char.isDigit

/-- `datetime.strptime(s, "%d.%m.%Y")`, reduced to the date's ordinal
(`strptime` sets the time to midnight).  `none` models `ValueError`. -/
def parse_date_key (s : String) : Option Nat :=
  match splitSep '.' s.data with
  | [dd, mm, yyyy] =>
    if allDigits dd ∧ 1 ≤ dd.length ∧ dd.length ≤ 2 ∧
       allDigits mm ∧ 1 ≤ mm.length ∧ mm.length ≤ 2 ∧
       allDigits yyyy ∧ yyyy.length = 4 then
      let d := digitsToNat dd
      let m := digitsToNat mm
      let y := digitsToNat yyyy
      if 1 ≤ d ∧ 1 ≤ m ∧ m ≤ 12 ∧ 1 ≤ y ∧ d ≤ daysInMonth y m then
        some (toOrdinal y m d)
      else none
    else none
  | _ => none

/-- `a >= b` on `datetime` values: lexicographic on (date, time). -/
def dtGe (a b : PyDateTime) : Bool :=
  b.day < a.day || (a.day = b.day && b.tod ≤ a.tod)

/-- The f-string on lines 238, 245, 253, 259. -/
def fmt_task (d : String) (hw : HW) : String :=
  "Дата: " ++ d ++ "\nПредмет: " ++ hw.subject ++ "\nЗадание: " ++ hw.task

/-- The nested `for` loops of `get_tasks_by_filter`, which append bucket
by bucket in dict iteration order. -/
def pyConcatMap (g : String × List HW → List String) : Store → List String
  | [] => []
  | p :: rest => g p ++ pyConcatMap g rest

/-- `get_tasks_by_filter` (lines 209-261).  Empty-string filters are first
converted to `None`.  Branch 1 (subject only) keeps buckets whose parsed
key, at midnight, compares `>=` against `datetime.now() + timedelta(days=
1)` - a full datetime comparison, not a date-only one - and skips
unparsable keys; subjects compare case-insensitively.  The store is
returned alongside the result list: the function only reads it. -/
def get_tasks_by_filter (now : PyDateTime) (subject date_str : Option String)
    (st : Store) : List String × Store :=
  let subject := if subject = some "" then none else subject
  let date_str := if date_str = some "" then none else date_str
  match subject, date_str with
  | some subj, none =>
    let tomorrow : PyDateTime := ⟨now.day + 1, now.tod⟩
    (pyConcatMap (fun p =>
      match parse_date_key p.1 with
      | none => []
      | some d =>
        if dtGe ⟨d, 0⟩ tomorrow then
          (p.2.filter (fun hw => pyLower hw.subject = pyLower subj)).map
            (fmt_task p.1)
        else []) st, st)
  | none, some d =>
    let (hw_list, st') := dictGet st d []
    (hw_list.map (fmt_task d), st')
  | some subj, some d =>
    let (hw_list, st') := dictGet st d []
    ((hw_list.filter (fun hw => pyLower hw.subject = pyLower subj)).map
      (fmt_task d), st')
  | none, none =>
    (pyConcatMap (fun p => p.2.map (fmt_task p.1)) st, st)

/-- `"\n\n".join(tasks)` (line 311). -/
def joinBlank : List String → String
  | [] => ""
  | [s] => s
  | s :: r => s ++ "\n\n" ++ joinBlank r

/-- The generic unknown-intent reply (line 330). -/
def unknown_reply : String :=
  "❌ Я не понял, что вы хотите: добавить задание или посмотреть?"

/-- `handle_message` (lines 275-330).  `intentResp`, `hwResp` and
`reqResp` are the raw model outputs of the (up to) two model calls the
handler makes (`none` = the call raised).  The result is the single
`reply_text` string plus the store afterwards; `Except.error` models an
uncaught exception propagating out of the handler (no reply is sent). -/
def handle_message (now : PyDateTime) (text : String)
    (intentResp hwResp reqResp : Option String) (st : Store) :
    Except PyErr (String × Store) :=
  match parse_query (adapterResult intentResp) with
  | .error e => .error e
  | .ok intent =>
    if pyEqStr "add" intent then
      match parse_homework text (adapterResult hwResp) with
      | .error e => .error e
      | .ok none => .ok ("❌ Не удалось распознать задание.", st)
      | .ok (some hw) =>
        let st' := store_insert st hw
        .ok ("✅ Задание добавлено:\nПредмет: " ++
             (if hw.subject = "" then "(не указан)" else hw.subject) ++
             "\nДата: " ++
             (if hw.date = "" then "(не указана)" else hw.date) ++
             "\nЗадание: " ++ hw.task, st')
    else if pyEqStr "get" intent then
      match parse_homework_request text (adapterResult reqResp) with
      | .error e => .error e
      | .ok none => .ok ("❌ Не удалось распознать запрос.", st)
      | .ok (some rq) =>
        let (tasks, st') :=
          get_tasks_by_filter now (some rq.subject) (some rq.date) st
        if tasks ≠ [] then .ok (joinBlank tasks, st')
        else if rq.subject ≠ "" ∧ rq.date ≠ "" then
          .ok ("❌ Заданий по предмету '" ++ rq.subject ++ "' на " ++
               rq.date ++ " не найдено.", st')
        else if rq.subject ≠ "" then
          .ok ("❌ Заданий по предмету '" ++ rq.subject ++
               "' не найдено (завтра и далее).", st')
        else if rq.date ≠ "" then
          .ok ("❌ Заданий на " ++ rq.date ++ " не найдено.", st')
        else .ok ("❌ Нет заданий.", st')
    else .ok (unknown_reply, st)

/-- The bucket-consistency invariant: every record lies in the bucket
keyed by its own date. -/
abbrev StoreWF (st : Store) : Prop :=
  ∀ p ∈ st, ∀ hw ∈ p.2, hw.date = p.1

/-!
Store lemmas.
-/

theorem storeGet_insert (st : Store) (r : HW) :
    storeGet (store_insert st r) r.date =
      some ((storeGet st r.date).getD [] ++ [r]) := by
  induction st with
  | nil => simp [store_insert, storeGet]
  | cons p rest ih =>
    obtain ⟨k, b⟩ := p
    by_cases h : k = r.date
    · subst h
      simp [store_insert, storeGet]
    · simp [store_insert, storeGet, h, ih]

theorem store_insert_mem (st : Store) (r : HW) :
    ∃ p, p ∈ store_insert st r ∧ p.1 = r.date ∧ r ∈ p.2 := by
  induction st with
  | nil => exact ⟨(r.date, [r]), by simp [store_insert]⟩
  | cons q rest ih =>
    obtain ⟨k, b⟩ := q
    by_cases h : k = r.date
    · subst h
      exact ⟨(r.date, b ++ [r]), by simp [store_insert]⟩
    · obtain ⟨p, hp, h1, h2⟩ := ih
      exact ⟨p, by simp [store_insert, h, hp], h1, h2⟩

theorem totalLen_insert (st : Store) (r : HW) :
    totalLen (store_insert st r) = totalLen st + 1 := by
  induction st with
  | nil => simp [store_insert, totalLen]
  | cons p rest ih =>
    obtain ⟨k, b⟩ := p
    by_cases h : k = r.date
    · subst h
      simp [store_insert, totalLen]
      omega
    · simp [store_insert, totalLen, h] at ih ⊢
      omega

theorem totalLen_insertAll (rs : List HW) (st : Store) :
    totalLen (insertAll rs st) = totalLen st + rs.length := by
  induction rs generalizing st with
  | nil => simp [insertAll]
  | cons r rs ih =>
    have : insertAll (r :: rs) st = insertAll rs (store_insert st r) := rfl
    rw [this, ih, totalLen_insert]
    simp [List.length_cons]
    omega

theorem pyConcatMap_mem (g : String × List HW → List String) (st : Store)
    (p : String × List HW) (x : String) (hp : p ∈ st) (hx : x ∈ g p) :
    x ∈ pyConcatMap g st := by
  induction st with
  | nil => cases hp
  | cons q rest ih =>
    rcases List.mem_cons.mp hp with h | h
    · subst h
      simp only [pyConcatMap, List.mem_append]
      exact Or.inl hx
    · simp only [pyConcatMap, List.mem_append]
      exact Or.inr (ih h)

theorem pyConcatMap_length (st : Store) :
    (pyConcatMap (fun p => p.2.map (fmt_task p.1)) st).length = totalLen st := by
  induction st with
  | nil => simp [pyConcatMap, totalLen]
  | cons p rest ih =>
    simp [pyConcatMap, totalLen] at ih ⊢
    omega

theorem storeWF_insert {st : Store} (h : StoreWF st) (r : HW) :
    StoreWF (store_insert st r) := by
  induction st with
  | nil =>
    intro p hp hw hhw
    simp [store_insert] at hp
    subst hp
    simp at hhw
    subst hhw
    rfl
  | cons q rest ih =>
    obtain ⟨k, b⟩ := q
    have hrest : StoreWF rest :=
      fun p hp hw hhw => h p (List.mem_cons_of_mem _ hp) hw hhw
    have hhead : ∀ hw ∈ b, hw.date = k :=
      fun hw hhw => h (k, b) (List.mem_cons_self _ _) hw hhw
    by_cases hk : k = r.date
    · intro p hp hw hhw
      rw [show store_insert ((k, b) :: rest) r = (k, b ++ [r]) :: rest by
        simp [store_insert, hk]] at hp
      rcases List.mem_cons.mp hp with hp | hp
      · subst hp
        rcases List.mem_append.mp hhw with h1 | h1
        · exact hhead hw h1
        · simp at h1
          subst h1
          exact hk.symm
      · exact hrest p hp hw hhw
    · intro p hp hw hhw
      rw [show store_insert ((k, b) :: rest) r = (k, b) :: store_insert rest r by
        simp [store_insert, hk]] at hp
      rcases List.mem_cons.mp hp with hp | hp
      · subst hp
        exact hhead hw hhw
      · exact ih hrest p hp hw hhw

theorem storeWF_insertAll (rs : List HW) {st : Store} (h : StoreWF st) :
    StoreWF (insertAll rs st) := by
  induction rs generalizing st with
  | nil => exact h
  | cons r rs ih => exact ih (storeWF_insert h r)

theorem storeWF_nil : StoreWF [] := by
  intro p hp
  cases hp

/-!
Case-table facts and character-level lemmas.
-/

theorem caseTable_fst_ne_snd :
    ∀ p ∈ caseTable, ∀ q ∈ caseTable, q.1 ≠ p.2 := by decide

theorem caseTable_keys_nodup : (caseTable.map Prod.fst).Nodup := by decide

theorem caseTable_not_space :
    ∀ p ∈ caseTable, isPySpace p.1 = false ∧ isPySpace p.2 = false := by
  decide

/-- A lower-case letter (a table value) is already lower case. -/
theorem pyLowerChar_value {v : Char} {p : Char × Char} (hp : p ∈ caseTable)
    (hv : p.2 = v) : pyLowerChar v = v := by
  unfold pyLowerChar
  have hnone : caseTable.find? (fun q => q.1 = v) = none := by
    apply List.find?_eq_none.mpr
    intro q hq
    simp only [decide_eq_true_eq]
    subst hv
    exact caseTable_fst_ne_snd p hp q hq
  simp [hnone]

/-- An upper-case letter (a table key) is already upper case. -/
theorem pyUpperChar_key {k : Char} {p : Char × Char} (hp : p ∈ caseTable)
    (hk : p.1 = k) : pyUpperChar k = k := by
  unfold pyUpperChar
  have hnone : caseTable.find? (fun q => q.2 = k) = none := by
    apply List.find?_eq_none.mpr
    intro q hq
    simp only [decide_eq_true_eq]
    subst hk
    exact fun h => caseTable_fst_ne_snd q hq p hp h.symm
  simp [hnone]

theorem pyLowerChar_lowerChar (c : Char) :
    pyLowerChar (pyLowerChar c) = pyLowerChar c := by
  rcases h : caseTable.find? (fun p => p.1 = c) with _ | p
  · have h1 : pyLowerChar c = c := by unfold pyLowerChar; rw [h]
    rw [h1, h1]
  · have hp : p ∈ caseTable := List.mem_of_find?_eq_some h
    have h1 : pyLowerChar c = p.2 := by unfold pyLowerChar; rw [h]
    rw [h1, pyLowerChar_value hp rfl]

theorem pyUpperChar_upperChar (c : Char) :
    pyUpperChar (pyUpperChar c) = pyUpperChar c := by
  rcases h : caseTable.find? (fun p => p.2 = c) with _ | p
  · have h1 : pyUpperChar c = c := by unfold pyUpperChar; rw [h]
    rw [h1, h1]
  · have hp : p ∈ caseTable := List.mem_of_find?_eq_some h
    have h1 : pyUpperChar c = p.1 := by unfold pyUpperChar; rw [h]
    rw [h1, pyUpperChar_key hp rfl]

theorem pyLowerChar_upperChar (c : Char) :
    pyLowerChar (pyUpperChar c) = pyLowerChar c := by
  rcases h : caseTable.find? (fun p => p.2 = c) with _ | p
  · have h1 : pyUpperChar c = c := by unfold pyUpperChar; rw [h]
    rw [h1]
  · have hp : p ∈ caseTable := List.mem_of_find?_eq_some h
    have hpc : p.2 = c := by
      have := List.find?_some h
      simpa using this
    have h1 : pyUpperChar c = p.1 := by unfold pyUpperChar; rw [h]
    have h2 : caseTable.find? (fun q => q.1 = p.1) = some p := by
      rcases h3 : caseTable.find? (fun q => q.1 = p.1) with _ | q
      · exfalso
        have := List.find?_eq_none.mp h3 p hp
        simp at this
      · have hq : q ∈ caseTable := List.mem_of_find?_eq_some h3
        have hq1 : q.1 = p.1 := by
          have := List.find?_some h3
          simpa using this
        have : q = p :=
          List.inj_on_of_nodup_map caseTable_keys_nodup hq hp hq1
        rw [h3, this]
    have h4 : pyLowerChar p.1 = p.2 := by unfold pyLowerChar; rw [h2]
    rw [h1, h4, hpc, pyLowerChar_value hp hpc]

theorem isPySpace_lowerChar (c : Char) :
    isPySpace (pyLowerChar c) = isPySpace c := by
  rcases h : caseTable.find? (fun p => p.1 = c) with _ | p
  · have h1 : pyLowerChar c = c := by unfold pyLowerChar; rw [h]
    rw [h1]
  · have hp : p ∈ caseTable := List.mem_of_find?_eq_some h
    have hpc : p.1 = c := by
      have := List.find?_some h
      simpa using this
    have h1 : pyLowerChar c = p.2 := by unfold pyLowerChar; rw [h]
    rw [h1, (caseTable_not_space p hp).2, ← hpc,
      (caseTable_not_space p hp).1]

theorem isPySpace_upperChar (c : Char) :
    isPySpace (pyUpperChar c) = isPySpace c := by
  rcases h : caseTable.find? (fun p => p.2 = c) with _ | p
  · have h1 : pyUpperChar c = c := by unfold pyUpperChar; rw [h]
    rw [h1]
  · have hp : p ∈ caseTable := List.mem_of_find?_eq_some h
    have hpc : p.2 = c := by
      have := List.find?_some h
      simpa using this
    have h1 : pyUpperChar c = p.1 := by unfold pyUpperChar; rw [h]
    rw [h1, (caseTable_not_space p hp).1, ← hpc,
      (caseTable_not_space p hp).2]

/-!
Strip and capitalize lemmas.
-/

theorem dropWhile_head_not (l : List Char) :
    ∀ c, (l.dropWhile isPySpace).head? = some c → isPySpace c = false := by
  induction l with
  | nil => intro c h; simp at h
  | cons a t ih =>
    intro c h
    by_cases ha : isPySpace a
    · rw [List.dropWhile_cons, if_pos ha] at h
      exact ih c h
    · rw [List.dropWhile_cons, if_neg ha] at h
      simp at h
      subst h
      exact Bool.eq_false_iff.mpr ha

theorem dropWhile_eq_self_of_head {l : List Char}
    (h : ∀ c, l.head? = some c → isPySpace c = false) :
    l.dropWhile isPySpace = l := by
  cases l with
  | nil => rfl
  | cons a t =>
    have := h a rfl
    rw [List.dropWhile_cons, if_neg (by simp [this])]

theorem trimEnd_head (l : List Char) :
    trimEnd l = [] ∨ (trimEnd l).head? = l.head? := by
  cases l with
  | nil => exact Or.inl rfl
  | cons c r =>
    by_cases h : trimEnd r = [] ∧ isPySpace c
    · exact Or.inl (by simp [trimEnd, h])
    · right
      rw [show trimEnd (c :: r) = c :: trimEnd r by simp [trimEnd, h]]
      rfl

theorem trimEnd_idem (l : List Char) : trimEnd (trimEnd l) = trimEnd l := by
  induction l with
  | nil => rfl
  | cons c r ih =>
    by_cases h : trimEnd r = [] ∧ isPySpace c
    · rw [show trimEnd (c :: r) = [] by simp [trimEnd, h]]
      rfl
    · rw [show trimEnd (c :: r) = c :: trimEnd r by simp [trimEnd, h]]
      rw [show trimEnd (c :: trimEnd r) =
        if trimEnd (trimEnd r) = [] ∧ isPySpace c then []
        else c :: trimEnd (trimEnd r) from rfl]
      rw [ih, if_neg h]

theorem trimEnd_cons_fix {c : Char} {t : List Char}
    (h : trimEnd (c :: t) = c :: t) : trimEnd t = t := by
  by_cases hc : trimEnd t = [] ∧ isPySpace c
  · rw [show trimEnd (c :: t) = [] by simp [trimEnd, hc]] at h
    cases h
  · rw [show trimEnd (c :: t) = c :: trimEnd t by simp [trimEnd, hc]] at h
    exact (List.cons.injEq _ _ _ _).mp h |>.2

theorem pyStripList_dropWhile (l : List Char) :
    (pyStripList l).dropWhile isPySpace = pyStripList l := by
  unfold pyStripList
  rcases trimEnd_head (l.dropWhile isPySpace) with h | h
  · rw [h]
    rfl
  · apply dropWhile_eq_self_of_head
    intro c hc
    rw [hc] at h
    exact dropWhile_head_not l c h.symm

theorem pyStripList_trimEnd (l : List Char) :
    trimEnd (pyStripList l) = pyStripList l :=
  trimEnd_idem _

theorem pyStripList_idem (l : List Char) :
    pyStripList (pyStripList l) = pyStripList l := by
  show trimEnd ((pyStripList l).dropWhile isPySpace) = pyStripList l
  rw [pyStripList_dropWhile, pyStripList_trimEnd]

theorem trimEnd_map_lower (l : List Char) :
    trimEnd (l.map pyLowerChar) = (trimEnd l).map pyLowerChar := by
  induction l with
  | nil => rfl
  | cons c r ih =>
    rw [List.map_cons]
    rw [show trimEnd (pyLowerChar c :: r.map pyLowerChar) =
      if trimEnd (r.map pyLowerChar) = [] ∧ isPySpace (pyLowerChar c) then []
      else pyLowerChar c :: trimEnd (r.map pyLowerChar) from rfl]
    rw [show trimEnd (c :: r) =
      if trimEnd r = [] ∧ isPySpace c then [] else c :: trimEnd r from rfl]
    rw [ih, isPySpace_lowerChar]
    by_cases h : trimEnd r = [] ∧ isPySpace c
    · rw [if_pos ⟨by rw [h.1]; rfl, h.2⟩, if_pos h]
      rfl
    · have h' : ¬((trimEnd r).map pyLowerChar = [] ∧ isPySpace c) := by
        intro hc
        exact h ⟨List.map_eq_nil_iff.mp hc.1, hc.2⟩
      rw [if_neg h', if_neg h]
      rfl

theorem capList_map_lower (l : List Char) :
    (capList l).map pyLowerChar = l.map pyLowerChar := by
  cases l with
  | nil => rfl
  | cons c t =>
    show pyLowerChar (pyUpperChar c) :: (t.map pyLowerChar).map pyLowerChar =
      pyLowerChar c :: t.map pyLowerChar
    rw [pyLowerChar_upperChar, List.map_map]
    congr 1
    exact List.map_congr_left (fun a _ => pyLowerChar_lowerChar a)

theorem capList_capList (l : List Char) : capList (capList l) = capList l := by
  cases l with
  | nil => rfl
  | cons c t =>
    show pyUpperChar (pyUpperChar c) :: (t.map pyLowerChar).map pyLowerChar =
      pyUpperChar c :: t.map pyLowerChar
    rw [pyUpperChar_upperChar, List.map_map]
    congr 1
    exact List.map_congr_left (fun a _ => pyLowerChar_lowerChar a)

/-- Stripping is a no-op on the capitalization of a stripped list. -/
theorem pyStripList_capList {l : List Char}
    (hd : l.dropWhile isPySpace = l) (ht : trimEnd l = l) :
    pyStripList (capList l) = capList l := by
  cases l with
  | nil => rfl
  | cons c t =>
    have hc : isPySpace c = false := by
      by_cases h : isPySpace c
      · exfalso
        rw [List.dropWhile_cons, if_pos h] at hd
        have hsub : t.dropWhile isPySpace <:+ t := List.dropWhile_suffix _
        have hle := hsub.length_le
        have h2 := congrArg List.length hd
        simp at h2
        omega
      · exact Bool.eq_false_iff.mpr h
    have htt : trimEnd t = t := trimEnd_cons_fix ht
    show trimEnd ((capList (c :: t)).dropWhile isPySpace) = capList (c :: t)
    have hcap : capList (c :: t) = pyUpperChar c :: t.map pyLowerChar := rfl
    rw [hcap]
    rw [List.dropWhile_cons, if_neg (by simp [isPySpace_upperChar, hc])]
    rw [show trimEnd (pyUpperChar c :: t.map pyLowerChar) =
      if trimEnd (t.map pyLowerChar) = [] ∧ isPySpace (pyUpperChar c) then []
      else pyUpperChar c :: trimEnd (t.map pyLowerChar) from rfl]
    rw [trimEnd_map_lower, htt, isPySpace_upperChar, hc]
    simp

theorem mk_eq_empty_iff (l : List Char) : (⟨l⟩ : String) = "" ↔ l = [] := by
  constructor
  · intro h
    have := congrArg String.data h
    simpa using this
  · intro h
    subst h
    rfl

/-- Closed form of the subject pipeline: blank for stoplist words and for
inputs that strip to nothing, otherwise `str.capitalize` of the stripped
input. -/
theorem normalize_subject_eq (raw : String) :
    normalize_subject raw =
      if stopwords.contains (pyStrip (pyLower (pyStrip raw))) then ""
      else if pyStripList raw.data = [] then ""
      else ⟨capList (pyStripList raw.data)⟩ := by
  unfold normalize_subject cleanup_subject_and_date
  simp only []
  by_cases hstop : stopwords.contains (pyStrip (pyLower (pyStrip raw))) = true
  · rw [if_pos hstop, if_pos hstop]
    rfl
  · rw [if_neg hstop, if_neg hstop]
    have h1 : pyStrip (pyStrip raw) = (⟨pyStripList raw.data⟩ : String) := by
      show (⟨pyStripList (pyStripList raw.data)⟩ : String) = _
      rw [pyStripList_idem]
    rw [h1]
    by_cases hnil : pyStripList raw.data = []
    · rw [if_pos ((mk_eq_empty_iff _).mpr hnil), if_pos hnil]
    · rw [if_neg (fun h => hnil ((mk_eq_empty_iff _).mp h)), if_neg hnil]
      rfl

theorem normalize_subject_empty : normalize_subject "" = "" := rfl

theorem normalize_subject_idem (raw : String) :
    normalize_subject (normalize_subject raw) = normalize_subject raw := by
  rw [normalize_subject_eq raw]
  by_cases hstop : stopwords.contains (pyStrip (pyLower (pyStrip raw))) = true
  · rw [if_pos hstop]
    exact normalize_subject_empty
  · rw [if_neg hstop]
    by_cases hnil : pyStripList raw.data = []
    · rw [if_pos hnil]
      exact normalize_subject_empty
    · rw [if_neg hnil]
      set S := pyStripList raw.data with hS
      have hdS : S.dropWhile isPySpace = S := pyStripList_dropWhile raw.data
      have htS : trimEnd S = S := pyStripList_trimEnd raw.data
      have hfix : pyStripList (capList S) = capList S :=
        pyStripList_capList hdS htS
      have hne : capList S ≠ [] := by
        rcases hSc : S with _ | ⟨c, t⟩
        · exact absurd hSc hnil
        · simp [capList]
      rw [normalize_subject_eq]
      have hdata : (⟨capList S⟩ : String).data = capList S := rfl
      have harg : pyStrip (pyLower (pyStrip (⟨capList S⟩ : String))) =
          pyStrip (pyLower (pyStrip raw)) := by
        show (⟨pyStripList ((pyStripList (capList S)).map pyLowerChar)⟩ :
          String) = _
        rw [hfix, capList_map_lower, hS]
        rfl
      rw [harg, if_neg hstop]
      rw [show pyStripList (⟨capList S⟩ : String).data = capList S from hfix]
      rw [if_neg hne, capList_capList]

/-!
Branch characterizations of `get_tasks_by_filter` (after the empty-string
to `None` conversion).
-/

theorem gtbf_date_only (now : PyDateTime) (d : String) (st : Store)
    (hd : d ≠ "") :
    (get_tasks_by_filter now (some "") (some d) st).1 =
      ((storeGet st d).getD []).map (fmt_task d) := by
  simp [get_tasks_by_filter, hd, dictGet]

theorem gtbf_both (now : PyDateTime) (s d : String) (st : Store)
    (hs : s ≠ "") (hd : d ≠ "") :
    (get_tasks_by_filter now (some s) (some d) st).1 =
      (((storeGet st d).getD []).filter
        (fun hw => pyLower hw.subject = pyLower s)).map (fmt_task d) := by
  simp [get_tasks_by_filter, hs, hd, dictGet]

/-!
Claim theorems.
-/

/-- C1: evaluation of `get_tasks_by_filter` at the failing input.  On
2025-03-05 at any time other than exactly midnight (time-of-day 1 here),
a subject-only lookup misses the bucket keyed with tomorrow's date
06.03.2025, because the code compares the bucket's midnight datetime
against `now + timedelta(days=1)` with the time-of-day kept; the claim
(and the function's own docstring) require tomorrow to be included.  At
exactly midnight the bucket is returned, and today's bucket 05.03.2025 is
always excluded. -/
theorem c1_subject_only_tomorrow_boundary :
    (get_tasks_by_filter ⟨toOrdinal 2025 3 5, 1⟩ (some "математика") none
      [("06.03.2025", [⟨"Математика", "упр. 10", "06.03.2025"⟩])]).1 = [] ∧
    (get_tasks_by_filter ⟨toOrdinal 2025 3 5, 0⟩ (some "математика") none
      [("06.03.2025", [⟨"Математика", "упр. 10", "06.03.2025"⟩])]).1 =
      ["Дата: 06.03.2025\nПредмет: Математика\nЗадание: упр. 10"] ∧
    (get_tasks_by_filter ⟨toOrdinal 2025 3 5, 1⟩ (some "математика") none
      [("05.03.2025", [⟨"Математика", "упр. 10", "05.03.2025"⟩])]).1 = [] :=
  ⟨rfl, rfl, rfl⟩

/-- C2 counterexample: a JSON array in the model output is returned as a
(non-`dict`) value, not converted to `None`, and fencing markers are
stripped as literal substrings, so an unbalanced fence around a valid
object also yields a value instead of `None`. -/
theorem c2_adapter_counterexample :
    ask_model_for_json "[1, 2]" = some (Json.arr [Json.num 1, Json.num 2]) ∧
    ask_model_for_json "```json\n\x7b\"a\": 1\x7d" =
      some (Json.obj [("a", Json.num 1)]) ∧
    some (Json.arr [Json.num 1, Json.num 2]) ≠ (none : Option Json) :=
  ⟨rfl, rfl, fun h => Option.noConfusion h⟩

/-- C2 amended: the adapter never raises; it returns `None` for an empty
output and for output whose fence-stripped text is not valid JSON, and
returns the parsed top-level value - whatever its type - whenever the
fence-stripped text parses, including an array and including a payload
with an unbalanced fence marker. -/
theorem c2_adapter_amended :
    ask_model_for_json "" = none ∧
    ask_model_for_json "here is your homework" = none ∧
    ask_model_for_json "```json" = none ∧
    ask_model_for_json "[1, 2]" = some (Json.arr [Json.num 1, Json.num 2]) ∧
    ask_model_for_json "```json\n\x7b\"a\": 1\x7d\n```" =
      some (Json.obj [("a", Json.num 1)]) ∧
    ask_model_for_json "```json\n\x7b\"a\": 1\x7d" =
      some (Json.obj [("a", Json.num 1)]) :=
  ⟨rfl, rfl, rfl, rfl, rfl, rfl⟩

/-- C3 counterexample: a record with a non-empty subject and an empty
date is inserted into the empty-date bucket, but the subject-only lookup
branch skips every bucket whose key does not parse as `DD.MM.YYYY`, so
the round trip returns nothing (whatever the current time). -/
theorem c3_roundtrip_counterexample :
    (get_tasks_by_filter ⟨toOrdinal 2025 3 5, 0⟩ (some "Математика")
      (some "") (store_insert [] ⟨"Математика", "упр. 10", ""⟩)).1 = [] :=
  rfl

/-- C4 counterexample: the code performs no linguistic normalization, so
two inflected forms of the same word ("история" nominative, "истории"
genitive) keep distinct canonical outputs. -/
theorem c4_normalizer_counterexample :
    normalize_subject "история" = "История" ∧
    normalize_subject "истории" = "Истории" ∧
    normalize_subject "история" ≠ normalize_subject "истории" := by
  refine ⟨rfl, rfl, ?_⟩
  intro h
  have : ("История" : String) = "Истории" := by
    rw [show normalize_subject "история" = "История" from rfl,
        show normalize_subject "истории" = "Истории" from rfl] at h
    exact h
  simp at this

/-- C5: evaluation of `handle_message` at the failing input.  The intent
call classifies "add"; the extraction call returns an object whose
`subject` field is the number 5; `parse_homework` then evaluates
`result.get("subject", "").strip()` on an `int`, raising
`AttributeError`, which nothing in `handle_message` catches - the turn
produces no reply instead of an absorbed failure. -/
theorem c5_pipeline_exception :
    handle_message ⟨toOrdinal 2025 3 5, 0⟩ "запиши задание"
      (some "\x7b\"intent\": \"add\"\x7d")
      (some "\x7b\"subject\": 5, \"task\": \"x\", \"date\": \"\"\x7d")
      none [] = Except.error (PyErr.attributeError "strip") :=
  rfl

/-- C4 amended: the subject normalizer only blanks stoplist words
(case-insensitively), trims whitespace and capitalizes (first character
up, the rest lowered); it collapses no grammatical inflections, and it is
idempotent on every input - in particular on already-canonical ones. -/
theorem c4_normalizer_amended :
    (∀ raw : String, normalize_subject (normalize_subject raw) =
      normalize_subject raw) ∧
    normalize_subject " задание " = "" ∧
    normalize_subject "ЧТО" = "" ∧
    normalize_subject "высшая МАТЕМАТИКА" = "Высшая математика" :=
  ⟨normalize_subject_idem, rfl, rfl, rfl⟩

/-- C9 counterexample: a record extracted with an empty task is accepted
and echoed, but the reply substitutes placeholders only for the empty
subject and date fields - the empty task is echoed as nothing after
"Задание: ", with no placeholder. -/
theorem c9_extractor_counterexample :
    handle_message ⟨toOrdinal 2025 3 5, 0⟩ "запиши"
      (some "\x7b\"intent\": \"add\"\x7d")
      (some "\x7b\"subject\": \"математика\", \"task\": \"\", \"date\": \"\"\x7d")
      none [] =
      Except.ok
        ("✅ Задание добавлено:\nПредмет: Математика\nДата: (не указана)\nЗадание: ",
         [("", [⟨"Математика", "", ""⟩])]) :=
  rfl

/-- C10: filtered lookup is read-only - for every store and every filter
combination the store component returned by `get_tasks_by_filter` is the
input store, unchanged: the missing-key case goes through `dict.get` with
a default (which, unlike `setdefault`, inserts nothing), and no branch
removes, reorders or rewrites records. -/
theorem c10_lookup_readonly (now : PyDateTime)
    (subject date_str : Option String) (st : Store) :
    (get_tasks_by_filter now subject date_str st).2 = st := by
  rcases subject with _ | s <;> rcases date_str with _ | d
  · rfl
  · by_cases hd : d = ""
    · subst hd
      rfl
    · simp [get_tasks_by_filter, hd, dictGet]
  · by_cases hs : s = ""
    · subst hs
      rfl
    · simp [get_tasks_by_filter, hs, dictGet]
  · by_cases hs : s = "" <;> by_cases hd : d = ""
    · subst hs; subst hd
      rfl
    · subst hs
      simp [get_tasks_by_filter, hd, dictGet]
    · subst hd
      simp [get_tasks_by_filter, hs, dictGet]
    · simp [get_tasks_by_filter, hs, hd, dictGet]

/-- C7: in every state reachable by inserts from the empty store, each
record lies in the bucket whose key equals the record's own `date`; and
insertion deduplicates nothing and validates nothing - inserting the same
record with a malformed date twice yields one bucket keyed by that
malformed string holding both copies. -/
theorem c7_store_invariant :
    (∀ (rs : List HW) (p : String × List HW) (hw : HW),
        p ∈ insertAll rs [] → hw ∈ p.2 → hw.date = p.1) ∧
    insertAll [⟨"Математика", "упр. 10", "не дата"⟩,
               ⟨"Математика", "упр. 10", "не дата"⟩] [] =
      [("не дата", [⟨"Математика", "упр. 10", "не дата"⟩,
                    ⟨"Математика", "упр. 10", "не дата"⟩])] :=
  ⟨fun rs p hw hp hhw => storeWF_insertAll rs storeWF_nil p hp hw hhw, rfl⟩

/-- C7 witness: the invariant instantiated at a store reached by one
insert. -/
theorem c7_store_invariant_witness :
    (⟨"Физика", "упр. 3", "07.03.2025"⟩ : HW).date = "07.03.2025" :=
  c7_store_invariant.1 [⟨"Физика", "упр. 3", "07.03.2025"⟩]
    ("07.03.2025", [⟨"Физика", "упр. 3", "07.03.2025"⟩])
    ⟨"Физика", "упр. 3", "07.03.2025"⟩
    (by simp [insertAll, store_insert]) (by simp)

/-- C6: after `N` inserts into the empty store, a lookup with neither
filter (given as `None` or as the empty string, which the function first
converts to `None`) returns exactly `N` formatted entries, however the
records are spread over buckets. -/
theorem c6_count_invariant (now : PyDateTime) (s d : Option String)
    (rs : List HW) (hs : s = none ∨ s = some "")
    (hd : d = none ∨ d = some "") :
    ((get_tasks_by_filter now s d (insertAll rs [])).1).length =
      rs.length := by
  have hbranch : (get_tasks_by_filter now s d (insertAll rs [])).1 =
      pyConcatMap (fun p => p.2.map (fmt_task p.1)) (insertAll rs []) := by
    rcases hs with h | h <;> rcases hd with h' | h' <;> subst h <;> subst h' <;>
      rfl
  rw [hbranch, pyConcatMap_length]
  have := totalLen_insertAll rs []
  simpa [totalLen] using this

/-- C3 amended: the insert-lookup round trip holds in every case except
a non-empty subject with an empty date (the case `c3_roundtrip_counterexample`
refutes): for every store, current time and record, after inserting the
record a lookup with its own subject and date returns a sequence
containing its formatted entry - subject compared case-insensitively,
date by exact string equality. -/
theorem c3_roundtrip_amended (now : PyDateTime) (st : Store) (r : HW)
    (h : r.subject = "" ∨ r.date ≠ "") :
    fmt_task r.date r ∈
      (get_tasks_by_filter now (some r.subject) (some r.date)
        (store_insert st r)).1 := by
  by_cases hs : r.subject = ""
  · by_cases hd : r.date = ""
    · have heq : get_tasks_by_filter now (some r.subject) (some r.date)
          (store_insert st r) =
          get_tasks_by_filter now (some "") (some "") (store_insert st r) := by
        rw [hs, hd]
      rw [heq]
      show fmt_task r.date r ∈
        pyConcatMap (fun p => p.2.map (fmt_task p.1)) (store_insert st r)
      obtain ⟨p, hp, h1, h2⟩ := store_insert_mem st r
      refine pyConcatMap_mem _ _ p _ hp ?_
      rw [← h1]
      exact List.mem_map_of_mem _ h2
    · have heq : get_tasks_by_filter now (some r.subject) (some r.date)
          (store_insert st r) =
          get_tasks_by_filter now (some "") (some r.date)
            (store_insert st r) := by
        rw [hs]
      rw [heq, gtbf_date_only now r.date _ hd, storeGet_insert st r]
      exact List.mem_map_of_mem _ (by simp)
  · have hd : r.date ≠ "" := by
      rcases h with h | h
      · exact absurd h hs
      · exact h
    rw [gtbf_both now r.subject r.date _ hs hd, storeGet_insert st r]
    refine List.mem_map_of_mem _ ?_
    refine List.mem_filter.mpr ⟨by simp, ?_⟩
    simp

/-- C3 witness: the round trip at a record with an empty subject and a
set date. -/
theorem c3_roundtrip_witness :
    fmt_task "05.03.2025" ⟨"", "упр. 7", "05.03.2025"⟩ ∈
      (get_tasks_by_filter ⟨toOrdinal 2025 3 5, 0⟩ (some "")
        (some "05.03.2025")
        (store_insert [] ⟨"", "упр. 7", "05.03.2025"⟩)).1 :=
  c3_roundtrip_amended ⟨toOrdinal 2025 3 5, 0⟩ []
    ⟨"", "упр. 7", "05.03.2025"⟩ (Or.inl rfl)

/-- C8: the intent classifier returns "unknown" when the adapter result
is absent or the returned record lacks the `intent` key, and otherwise
passes the stored value through unvalidated; and for any turn whose
classified intent is neither exactly "add" nor exactly "get" (for example
"maybe"), the orchestrator replies with the generic unknown-intent
message and leaves the store untouched. -/
theorem c8_intent_dispatch :
    parse_query none = Except.ok (Json.str "unknown") ∧
    (∀ fields : List (String × Json), objLookup fields "intent" = none →
      parse_query (some (Json.obj fields)) = Except.ok (Json.str "unknown")) ∧
    (∀ (fields : List (String × Json)) (v : Json),
      objLookup fields "intent" = some v →
      parse_query (some (Json.obj fields)) = Except.ok v) ∧
    (∀ (now : PyDateTime) (text : String) (ir hr rr : Option String)
      (st : Store) (v : Json),
      parse_query (adapterResult ir) = Except.ok v →
      pyEqStr "add" v = false → pyEqStr "get" v = false →
      handle_message now text ir hr rr st = Except.ok (unknown_reply, st)) := by
  refine ⟨rfl, ?_, ?_, ?_⟩
  · intro fields h
    cases fields with
    | nil => rfl
    | cons p rest =>
      simp [parse_query, pyTruthy, pyContains, h]
  · intro fields v h
    cases fields with
    | nil => simp [objLookup] at h
    | cons p rest =>
      simp [parse_query, pyTruthy, pyContains, pySubscript, h]
  · intro now text ir hr rr st v hpq hadd hget
    simp [handle_message, hpq, hadd, hget]

/-- C8 witness: the classifier passes "maybe" through, and the
orchestrator dispatches it to the unknown-intent reply with the store
unchanged. -/
theorem c8_intent_dispatch_witness :
    parse_query (some (Json.obj [("intent", Json.str "maybe")])) =
      Except.ok (Json.str "maybe") ∧
    handle_message ⟨toOrdinal 2025 3 5, 0⟩ "сделай что-нибудь"
      (some "\x7b\"intent\": \"maybe\"\x7d") none none [] =
      Except.ok (unknown_reply, []) :=
  ⟨c8_intent_dispatch.2.2.1 [("intent", Json.str "maybe")]
    (Json.str "maybe") rfl,
   c8_intent_dispatch.2.2.2 ⟨toOrdinal 2025 3 5, 0⟩ "сделай что-нибудь"
    (some "\x7b\"intent\": \"maybe\"\x7d") none none []
    (Json.str "maybe") rfl rfl rfl⟩

/-- C6 witness: two inserts into different buckets, lookup without
filters returns two entries. -/
theorem c6_count_invariant_witness :
    ((get_tasks_by_filter ⟨toOrdinal 2025 3 5, 0⟩ none none
      (insertAll [⟨"Математика", "упр. 1", "05.03.2025"⟩,
                  ⟨"Физика", "упр. 2", ""⟩] [])).1).length = 2 :=
  c6_count_invariant ⟨toOrdinal 2025 3 5, 0⟩ none none
    [⟨"Математика", "упр. 1", "05.03.2025"⟩, ⟨"Физика", "упр. 2", ""⟩]
    (Or.inl rfl) (Or.inl rfl)

/-- C9 amended: on adapter results that are absent or whose
subject/task/date values are strings (or missing), `parse_homework`
returns absent exactly when the adapter result was absent or all three
normalized fields are empty; otherwise it returns the record, with
possibly-empty fields; and the orchestrator accepts such a record,
echoing placeholders for an empty subject and an empty date (but not for
an empty task, see `c9_extractor_counterexample`). -/
theorem c9_extractor_amended :
    (∀ (text : String) (fields : List (String × Json)),
      strOrMissing fields "subject" → strOrMissing fields "task" →
      strOrMissing fields "date" →
      (parse_homework text (some (Json.obj fields)) = Except.ok none ↔
        ((ph_fields text fields).1 = "" ∧ (ph_fields text fields).2.1 = "" ∧
          (ph_fields text fields).2.2 = "")) ∧
      (((ph_fields text fields).1 ≠ "" ∨ (ph_fields text fields).2.1 ≠ "" ∨
          (ph_fields text fields).2.2 ≠ "") →
        parse_homework text (some (Json.obj fields)) =
          Except.ok (some
            ⟨if (ph_fields text fields).1 = "" then ""
              else pyCapitalize (ph_fields text fields).1,
              (ph_fields text fields).2.1,
              (ph_fields text fields).2.2⟩))) ∧
    (∀ text : String, parse_homework text none = Except.ok none) ∧
    handle_message ⟨toOrdinal 2025 3 5, 0⟩ "запиши"
      (some "\x7b\"intent\": \"add\"\x7d")
      (some "\x7b\"task\": \"прочитать\"\x7d") none [] =
      Except.ok
        ("✅ Задание добавлено:\nПредмет: (не указан)\nДата: (не указана)\nЗадание: прочитать",
          [("", [⟨"", "прочитать", ""⟩])]) := by
  refine ⟨?_, fun _ => rfl, rfl⟩
  intro text fields hsub htask hdate
  have hget : ∀ k, strOrMissing fields k →
      pyGet (Json.obj fields) k (Json.str "") =
        Except.ok (Json.str (fieldStr fields k)) := by
    intro k hk
    unfold pyGet fieldStr
    rcases h : objLookup fields k with _ | v
    · simp [h]
    · obtain ⟨s, rfl⟩ := hk v h
      simp [h]
  cases fields with
  | nil =>
    refine ⟨⟨fun _ => ⟨rfl, rfl, rfl⟩, fun _ => rfl⟩, fun hcase => ?_⟩
    rcases hcase with h | h | h <;> exact absurd rfl h
  | cons p rest =>
    have h1 := hget "subject" hsub
    have h2 := hget "task" htask
    have h3 := hget "date" hdate
    have hred : parse_homework text (some (Json.obj (p :: rest))) =
        (if (ph_fields text (p :: rest)).1 = "" ∧
            (ph_fields text (p :: rest)).2.1 = "" ∧
            (ph_fields text (p :: rest)).2.2 = "" then Except.ok none
         else Except.ok (some
            ⟨if (ph_fields text (p :: rest)).1 = "" then ""
              else pyCapitalize (ph_fields text (p :: rest)).1,
              (ph_fields text (p :: rest)).2.1,
              (ph_fields text (p :: rest)).2.2⟩)) := by
      simp only [parse_homework, h1, h2, h3, pyStripAttr]
      rw [if_neg (show ¬(pyTruthy (Json.obj (p :: rest)) = false) by
        simp [pyTruthy])]
      rfl
    rw [hred]
    constructor
    · by_cases hcond : (ph_fields text (p :: rest)).1 = "" ∧
          (ph_fields text (p :: rest)).2.1 = "" ∧
          (ph_fields text (p :: rest)).2.2 = ""
      · rw [if_pos hcond]
        simp [hcond]
      · rw [if_neg hcond]
        simp [hcond]
    · intro hne
      have hcond : ¬((ph_fields text (p :: rest)).1 = "" ∧
          (ph_fields text (p :: rest)).2.1 = "" ∧
          (ph_fields text (p :: rest)).2.2 = "") := by
        rcases hne with h | h | h <;> intro hc
        · exact h hc.1
        · exact h hc.2.1
        · exact h hc.2.2
      rw [if_neg hcond]

/-- C9 witness: a record with a subject only is returned with empty task
and date fields. -/
theorem c9_extractor_witness :
    parse_homework "запиши" (some (Json.obj [("subject", Json.str "матем")])) =
      Except.ok (some ⟨"Матем", "", ""⟩) := by
  have h := (c9_extractor_amended.1 "запиши" [("subject", Json.str "матем")]
      (fun v hv => ⟨"матем", by
        have : Json.str "матем" = v := by simpa [objLookup] using hv
        exact this.symm⟩)
      (fun v hv => by simp [objLookup] at hv)
      (fun v hv => by simp [objLookup] at hv)).2
      (Or.inl (by decide))
  exact h

end Bot
